import Mathlib

/-!
Shallow embedding of the vfs-rs ZIP container reader
(src/zip/spec.rs, zip_archive.rs, zip_file.rs, plaintext.rs, deflate.rs)
together with proofs about the embedded operations.

Files are modelled as lists of byte values (List Nat); u16/u32/u64 values
are Nat with explicit checks where the source checks; fallible operations
return Except.  Seekable readers are modelled by passing the absolute
position explicitly, mirroring the source's cursor.
-/

deriving instance DecidableEq for Except

namespace VfsZip

/-- Little-endian value of a list of bytes (least significant byte first). -/
def leNum (l : List Nat) : Nat := l.foldr (fun b acc => b + 256 * acc) 0

/-- Value of the n-byte little-endian word starting at offset p (no bounds check;
used only under an explicit range guard, mirroring a successful read). -/
def numAt (bs : List Nat) (p n : Nat) : Nat := leNum ((bs.drop p).take n)

/-- Read exactly n bytes at offset p; none models the io error a failed
read_exact raises. -/
def readBytesAt (bs : List Nat) (p n : Nat) : Option (List Nat) :=
  if p + n ≤ bs.length then some ((bs.drop p).take n) else none

/-- Read an n-byte little-endian integer at offset p. -/
def readNumAt (bs : List Nat) (p n : Nat) : Option Nat :=
  (readBytesAt bs p n).map leNum

/-- read_u16 little endian at an absolute offset. -/
def readU16At (bs : List Nat) (p : Nat) : Option Nat := readNumAt bs p 2

/-- read_u32 little endian at an absolute offset. -/
def readU32At (bs : List Nat) (p : Nat) : Option Nat := readNumAt bs p 4

/-- Semantics of File::read at an offset: returns up to limit bytes starting
there (fewer only at end of file), never erroring. -/
def fileReadAt (file : List Nat) (off limit : Nat) : List Nat :=
  (file.drop off).take limit

/-- The error taxonomy of src/zip/result.rs (io error payloads elided). -/
inductive ZipError
  | ioError
  | InvalidArchive (msg : String)
  | UnsupportedArchive
  | UnsupportedAesExtraData
  | UnsupportedCompressionMethod (m : Nat)
  | FileNotFound
deriving DecidableEq

def LOCAL_FILE_HEADER_SIGNATURE : Nat := 0x04034b50
def CENTRAL_DIRECTORY_HEADER_SIGNATURE : Nat := 0x02014b50
def CENTRAL_DIRECTORY_END_SIGNATURE : Nat := 0x06054b50
def ZIP64_BYTES_THR : Nat := 0xFFFFFFFF
def U64_MAX : Nat := 0xFFFFFFFFFFFFFFFF

/-- The EOCD record of src/zip/spec.rs (CentralDirectoryEnd). -/
structure CentralDirectoryEnd where
  disk_number : Nat
  disk_with_central_directory : Nat
  number_of_files_on_this_disk : Nat
  number_of_files : Nat
  central_directory_size : Nat
  central_directory_offset : Nat
  zip_file_comment : List Nat
deriving DecidableEq

/-- CentralDirectoryEnd::parse, reading sequentially from offset pos:
magic u32, four u16 fields, two u32 fields, a u16 comment length and the
comment bytes. -/
def parseCde (bytes : List Nat) (pos : Nat) : Except ZipError CentralDirectoryEnd :=
  match readU32At bytes pos with
  | none => .error .ioError
  | some magic =>
    if magic ≠ CENTRAL_DIRECTORY_END_SIGNATURE then
      .error (.InvalidArchive "Invalid digital signature header")
    else
      match readU16At bytes (pos + 4), readU16At bytes (pos + 6),
            readU16At bytes (pos + 8), readU16At bytes (pos + 10),
            readU32At bytes (pos + 12), readU32At bytes (pos + 16),
            readU16At bytes (pos + 20) with
      | some dn, some dwcd, some nfd, some nf, some cds, some cdo, some clen =>
        match readBytesAt bytes (pos + 22) clen with
        | some comment => .ok ⟨dn, dwcd, nfd, nf, cds, cdo, comment⟩
        | none => .error .ioError
      | _, _, _, _, _, _, _ => .error .ioError

/-- The backward scan of CentralDirectoryEnd::find_and_parse: at each
candidate position read a u32 and compare with the EOCD signature; on a
match parse the record there and return its position; decrement by one,
stopping (checked_sub underflow, or crossing the lower bound) with the
could-not-find error. -/
def findEocdLoop (bytes : List Nat) (bound : Nat) : Nat → Except ZipError (CentralDirectoryEnd × Nat)
  | 0 =>
    match readU32At bytes 0 with
    | none => .error .ioError
    | some w =>
      if w = CENTRAL_DIRECTORY_END_SIGNATURE then
        (parseCde bytes 0).map (fun cde => (cde, 0))
      else .error (.InvalidArchive "Could not find central directory end")
  | p + 1 =>
    match readU32At bytes (p + 1) with
    | none => .error .ioError
    | some w =>
      if w = CENTRAL_DIRECTORY_END_SIGNATURE then
        (parseCde bytes (p + 1)).map (fun cde => (cde, p + 1))
      else
        if bound ≤ p then findEocdLoop bytes bound p
        else .error (.InvalidArchive "Could not find central directory end")

/-- CentralDirectoryEnd::find_and_parse: length check against the fixed
22-byte record, lower search bound length - 22 - 65535 (saturating), then
the backward scan starting at length - 22. -/
def find_and_parse (bytes : List Nat) : Except ZipError (CentralDirectoryEnd × Nat) :=
  let file_length := bytes.length
  let search_upper_bound := file_length - (22 + 65535)
  if file_length < 22 then .error (.InvalidArchive "Invalid zip header")
  else findEocdLoop bytes search_upper_bound (file_length - 22)

/-- A position the backward EOCD scan can accept: within the search window
and carrying the EOCD signature. -/
def eocdCandidate (bytes : List Nat) (p : Nat) : Prop :=
  bytes.length - (22 + 65535) ≤ p ∧ p ≤ bytes.length - 22 ∧
    readU32At bytes p = some CENTRAL_DIRECTORY_END_SIGNATURE

instance (bytes : List Nat) (p : Nat) : Decidable (eocdCandidate bytes p) := by
  unfold eocdCandidate; exact inferInstance

/-- u64::checked_sub. -/
def checkedSub (a b : Nat) : Option Nat := if b ≤ a then some (a - b) else none

/-- The legacy (no ZIP64 locator) branch of ZipArchive::get_directory_counts:
archive offset by two checked subtractions, directory start, per-disk file
count. -/
def getDirectoryCountsLegacy (footer : CentralDirectoryEnd) (cde_start_pos : Nat) :
    Except ZipError (Nat × Nat × Nat) :=
  match (checkedSub cde_start_pos footer.central_directory_size).bind
      (fun x => checkedSub x footer.central_directory_offset) with
  | none => .error (.InvalidArchive "Invalid central directory size or offset")
  | some archive_offset =>
    .ok (archive_offset, footer.central_directory_offset + archive_offset,
      footer.number_of_files_on_this_disk)

/-- CompressionMethod of src/zip/spec.rs. -/
inductive CompressionMethod
  | Stored
  | Deflate
  | Unsupported (v : Nat)
deriving DecidableEq

/-- CompressionMethod::from_u16. -/
def CompressionMethod.from_u16 (val : Nat) : CompressionMethod :=
  match val with
  | 0 => .Stored
  | 8 => .Deflate
  | v => .Unsupported v

inductive AesVendorVersion
  | Ae1
  | Ae2
deriving DecidableEq

inductive AesMode
  | Aes128
  | Aes192
  | Aes256
deriving DecidableEq

/-- ZipFileData of src/zip/zip_file.rs. -/
structure ZipFileData where
  compression_method : CompressionMethod
  compressed_size : Nat
  uncompressed_size : Nat
  file_name : String
  extra_field : List Nat
  header_start : Nat
  central_header_start : Nat
  large_file : Bool
  aes_mode : Option (AesMode × AesVendorVersion)
deriving DecidableEq

/-- First if-block of the kind 0x0001 (ZIP64) arm of parse_extra_field:
when the legacy uncompressed size holds the 0xFFFFFFFF sentinel, mark the
entry a large file and read its 8-byte override. -/
def zip64UncompressedStep (file : ZipFileData) (extra : List Nat) (p : Nat) (lenLeft : Int) :
    ZipFileData × Nat × Int × Except ZipError Unit :=
  if file.uncompressed_size = ZIP64_BYTES_THR then
    let f := { file with large_file := true }
    match readNumAt extra p 8 with
    | some v => ({ f with uncompressed_size := v }, p + 8, lenLeft - 8, Except.ok ())
    | none => (f, p, lenLeft, Except.error ZipError.ioError)
  else (file, p, lenLeft, Except.ok ())

/-- Second if-block of the ZIP64 arm: the same for the compressed size. -/
def zip64CompressedStep (file : ZipFileData) (extra : List Nat) (p : Nat) (lenLeft : Int) :
    ZipFileData × Nat × Int × Except ZipError Unit :=
  if file.compressed_size = ZIP64_BYTES_THR then
    let f := { file with large_file := true }
    match readNumAt extra p 8 with
    | some v => ({ f with compressed_size := v }, p + 8, lenLeft - 8, Except.ok ())
    | none => (f, p, lenLeft, Except.error ZipError.ioError)
  else (file, p, lenLeft, Except.ok ())

/-- Third if-block of the ZIP64 arm: the header-offset override; note the
source does not set large_file here. -/
def zip64HeaderStep (file : ZipFileData) (extra : List Nat) (p : Nat) (lenLeft : Int) :
    ZipFileData × Nat × Int × Except ZipError Unit :=
  if file.header_start = ZIP64_BYTES_THR then
    match readNumAt extra p 8 with
    | some v => ({ file with header_start := v }, p + 8, lenLeft - 8, Except.ok ())
    | none => (file, p, lenLeft, Except.error ZipError.ioError)
  else (file, p, lenLeft, Except.ok ())

/-- The kind 0x0001 (ZIP64) arm of parse_extra_field: the three if-blocks
in fixed order (uncompressed size, compressed size, header offset), each
read aborting the arm with its io error. -/
def zip64ExtraBlock (file : ZipFileData) (extra : List Nat) (p : Nat) (lenLeft : Int) :
    ZipFileData × Nat × Int × Except ZipError Unit :=
  match zip64UncompressedStep file extra p lenLeft with
  | (f, p1, l1, .error e) => (f, p1, l1, .error e)
  | (f, p1, l1, .ok _) =>
    match zip64CompressedStep f extra p1 l1 with
    | (g, p2, l2, .error e) => (g, p2, l2, .error e)
    | (g, p2, l2, .ok _) => zip64HeaderStep g extra p2 l2

/-- The record loop of parse_extra_field over the raw extra-field bytes.
Each iteration reads a u16 kind and u16 length at the cursor, dispatches on
the kind (0x0001 ZIP64, 0x9901 AES, anything else skipped), then skips any
still-unconsumed declared length.  The loop runs while the cursor is below
the buffer length; fuel bounds the iteration count.  Every iteration moves
the cursor forward by at least 4, so extra.length + 1 fuel always suffices
(parseExtraLoop_fuel below); the fuel-exhausted result coincides with the
loop-exit result on every reachable call. -/
def parseExtraLoop (extra : List Nat) : Nat → ZipFileData → Nat → ZipFileData × Except ZipError Unit
  | 0, file, _ => (file, .ok ())
  | fuel + 1, file, pos =>
    if pos < extra.length then
      match readNumAt extra pos 2, readNumAt extra (pos + 2) 2 with
      | some kind, some len =>
        if kind = 0x0001 then
          match zip64ExtraBlock file extra (pos + 4) (len : Int) with
          | (file', p, lenLeft, .ok _) =>
            parseExtraLoop extra fuel file' (if 0 < lenLeft then p + lenLeft.toNat else p)
          | (file', _, _, .error e) => (file', .error e)
        else if kind = 0x9901 then
          if len ≠ 7 then (file, .error .UnsupportedAesExtraData)
          else
            match readNumAt extra (pos + 4) 2, readNumAt extra (pos + 6) 2,
                  readNumAt extra (pos + 8) 1, readNumAt extra (pos + 9) 2 with
            | some vendor_version, some vendor_id, some aes_mode, some compression_method =>
              if vendor_id ≠ 0x4541 then (file, .error (.InvalidArchive "Invalid AES vendor"))
              else
                match (match vendor_version with
                       | 1 => some AesVendorVersion.Ae1
                       | 2 => some AesVendorVersion.Ae2
                       | _ => none) with
                | none => (file, .error (.InvalidArchive "Invalid AES vendor version"))
                | some vv =>
                  match (match aes_mode with
                         | 1 => some AesMode.Aes128
                         | 2 => some AesMode.Aes192
                         | 3 => some AesMode.Aes256
                         | _ => none) with
                  | none => (file, .error (.InvalidArchive "Invalid AES encryption strength"))
                  | some am =>
                    -- len_left stays 7 here, so 7 further bytes are skipped
                    -- after the 7 read (cursor pos + 11 + 7)
                    parseExtraLoop extra fuel
                      { file with
                        aes_mode := some (am, vv)
                        compression_method := .from_u16 compression_method } (pos + 11 + 7)
            | _, _, _, _ => (file, .error .ioError)
        else
          -- unknown kind: nothing consumed beyond kind and length; the
          -- whole declared length is then skipped (len_left = len > 0)
          parseExtraLoop extra fuel file (pos + 4 + len)
      | _, _ => (file, .error .ioError)
    else (file, .ok ())

/-- parse_extra_field of src/zip/zip_file.rs: scan the entry's raw
extra-field block from position 0.  The second component is the outcome the
source returns; the first is the (possibly partially updated) entry, which
the caller keeps even on an io-error outcome. -/
def parse_extra_field (file : ZipFileData) : ZipFileData × Except ZipError Unit :=
  parseExtraLoop file.extra_field (file.extra_field.length + 1) file 0

/-- The tail of central_header_to_zip_file_inner after extra-field
resolution: reject an unsupported resolved compression method with its
dedicated classification, then apply the archive offset to the local
header offset with a checked add. -/
def afterExtraField (result : ZipFileData) (archive_offset endPos : Nat) :
    (Except ZipError ZipFileData) × Nat :=
  match result.compression_method with
  | .Unsupported m => (.error (.UnsupportedCompressionMethod m), endPos)
  | _ =>
    if result.header_start + archive_offset ≤ U64_MAX then
      (.ok { result with header_start := result.header_start + archive_offset }, endPos)
    else (.error (.InvalidArchive "Archive header is too large"), endPos)

/-- central_header_to_zip_file_inner of src/zip/zip_file.rs, entered with
the cursor just past the signature.  Reads the 42 fixed little-endian bytes
(version made by, version to extract, flags, compression method, mod time,
mod date, crc32, sizes, three block lengths, disk number, attributes, local
header offset), then the name, extra-field and comment blocks; decodes the
name with the UTF-8 decoder when flag bit 11 is set, the CP437 decoder
otherwise (both passed in as pure functions; CP437 decoding lives outside
src/); runs parse_extra_field, swallowing only its io-error outcome; then
afterExtraField.  Returns the result and the cursor after the record. -/
def centralHeaderInner (utf8Decode cp437Decode : List Nat → String) (bytes : List Nat)
    (pos archive_offset central_header_start : Nat) : (Except ZipError ZipFileData) × Nat :=
  if pos + 42 ≤ bytes.length then
    -- version_made_by at pos, version_to_extract at pos+2, last_mod_time at
    -- pos+8, last_mod_date at pos+10, crc32 at pos+12, disk_number at
    -- pos+30, internal attributes at pos+32, external at pos+34: read (the
    -- cursor passes over them) but unused by ZipFileData
    let flags := numAt bytes (pos + 4) 2
    let is_utf8 := flags.testBit 11
    let compression_method := numAt bytes (pos + 6) 2
    let compressed_size := numAt bytes (pos + 16) 4
    let uncompressed_size := numAt bytes (pos + 20) 4
    let file_name_length := numAt bytes (pos + 24) 2
    let extra_field_length := numAt bytes (pos + 26) 2
    let file_comment_length := numAt bytes (pos + 28) 2
    let offset := numAt bytes (pos + 38) 4
    let afterFixed := pos + 42
    let endPos := afterFixed + file_name_length + extra_field_length + file_comment_length
    if endPos ≤ bytes.length then
      let file_name_raw := (bytes.drop afterFixed).take file_name_length
      let extra_field := (bytes.drop (afterFixed + file_name_length)).take extra_field_length
      -- the comment block is read and decoded but not stored
      let file_name := if is_utf8 then utf8Decode file_name_raw else cp437Decode file_name_raw
      let result0 : ZipFileData :=
        { compression_method := .from_u16 compression_method
          compressed_size := compressed_size
          uncompressed_size := uncompressed_size
          file_name := file_name
          extra_field := extra_field
          header_start := offset
          central_header_start := central_header_start
          large_file := false
          aes_mode := none }
      let pr := parse_extra_field result0
      match pr.2 with
      | .ok _ => afterExtraField pr.1 archive_offset endPos
      | .error .ioError => afterExtraField pr.1 archive_offset endPos
      | .error e => (.error e, endPos)
    else (.error .ioError, bytes.length)
  else (.error .ioError, bytes.length)

/-- central_header_to_zip_file of src/zip/zip_archive.rs: record the
current position, read and validate the central-directory signature, then
run the inner parser. -/
def centralHeaderToZipFile (utf8Decode cp437Decode : List Nat → String) (bytes : List Nat)
    (pos archive_offset : Nat) : (Except ZipError ZipFileData) × Nat :=
  let central_header_start := pos
  match readU32At bytes pos with
  | none => (.error .ioError, bytes.length)
  | some signature =>
    if signature ≠ CENTRAL_DIRECTORY_HEADER_SIGNATURE then
      (.error (.InvalidArchive "Invalid Central Directory header"), pos + 4)
    else centralHeaderInner utf8Decode cp437Decode bytes (pos + 4) archive_offset central_header_start

/-- HashMap::insert keyed by name: the new binding replaces any earlier
binding of the same key. -/
def mapInsert (m : List (String × ZipFileData)) (k : String) (v : ZipFileData) :
    List (String × ZipFileData) :=
  (k, v) :: m.filter (fun p => ¬ (p.1 = k))

/-- HashMap::get keyed by name. -/
def mapLookup (m : List (String × ZipFileData)) (k : String) : Option ZipFileData :=
  match m with
  | [] => none
  | (k', v) :: t => if k' = k then some v else mapLookup t k

/-- The central-directory enumeration loop of ZipArchive::new: for
number_of_files iterations parse one central header; insert a parsed entry
under its name; treat an unsupported-compression-method failure as skip
this entry and continue; abort on any other failure. -/
def enumerateEntries (utf8Decode cp437Decode : List Nat → String) (archive_offset : Nat)
    (bytes : List Nat) :
    Nat → Nat → List (String × ZipFileData) → Except ZipError (List (String × ZipFileData))
  | 0, _, entries => .ok entries
  | n + 1, pos, entries =>
    match centralHeaderToZipFile utf8Decode cp437Decode bytes pos archive_offset with
    | (.ok d, pos') =>
      enumerateEntries utf8Decode cp437Decode archive_offset bytes n pos' (mapInsert entries d.file_name d)
    | (.error (.UnsupportedCompressionMethod _), pos') =>
      enumerateEntries utf8Decode cp437Decode archive_offset bytes n pos' entries
    | (.error e, _) => .error e

/-- std::io::SeekFrom: Start carries a u64, End and Current an i64. -/
inductive SeekFrom
  | start (p : Nat)
  | end_ (p : Int)
  | current (p : Int)
deriving DecidableEq

/-- PlaintextReader of src/zip/plaintext.rs (the shared file handle is
passed to each operation instead of being stored). -/
structure PlaintextReader where
  start : Nat
  end_ : Nat
  position : Nat
deriving DecidableEq

/-- PlaintextReader::new. -/
def PlaintextReader.new (start end_ : Nat) : PlaintextReader :=
  { start := start, end_ := end_, position := 0 }

/-- PlaintextReader::read: immediately report end-of-stream once position
reaches end - start; otherwise seek the shared file to start + position,
read up to min(remaining, caller buffer length) bytes and advance position
by the count actually read.  Returns the bytes read and the new state. -/
def PlaintextReader.read (r : PlaintextReader) (file : List Nat) (bufLen : Nat) :
    List Nat × PlaintextReader :=
  if r.end_ - r.start ≤ r.position then ([], r)
  else
    let from_ := r.position + r.start
    let len := r.end_ - r.start - r.position
    let limit := min len bufLen
    let chunk := fileReadAt file from_ limit
    (chunk, { r with position := r.position + chunk.length })

/-- PlaintextReader::seek: compute the i64 target (note End(p) is computed
as end - start - p), convert with u64 wrap-around semantics, and accept it
exactly when it does not exceed end - start. -/
def PlaintextReader.seek (r : PlaintextReader) (pos : SeekFrom) :
    Except String (Nat × PlaintextReader) :=
  let position : Int :=
    match pos with
    | .start p => (p : Int)
    | .end_ p => (r.end_ : Int) - (r.start : Int) - p
    | .current p => (r.position : Int) + p
  let posU : Nat := (position % ((2 : Int) ^ 64)).toNat
  if r.end_ - r.start < posU then .error "Invalid seek input"
  else .ok (posU, { r with position := posU })

/-- One caller-visible operation on a stored reader. -/
inductive PlainOp
  | readOp (n : Nat)
  | seekOp (s : SeekFrom)
deriving DecidableEq

/-- Run a sequence of read and seek calls; a failed seek leaves the reader
unchanged, exactly as the source's early return does. -/
def runOps (file : List Nat) : List PlainOp → PlaintextReader → PlaintextReader
  | [], r => r
  | .readOp n :: rest, r => runOps file rest (r.read file n).2
  | .seekOp s :: rest, r =>
    runOps file rest (match r.seek s with
      | .ok (_, r') => r'
      | .error _ => r)

/-- The range invariant of a stored reader: a well-formed range and a
logical position inside [0, end - start]. -/
def PlaintextReader.rangeInv (r : PlaintextReader) : Prop :=
  r.start ≤ r.end_ ∧ r.position ≤ r.end_ - r.start

instance (r : PlaintextReader) : Decidable r.rangeInv := by
  unfold PlaintextReader.rangeInv; exact inferInstance

/-- Status of one flate2 Decompress::decompress call. -/
inductive FlateStatus
  | ok
  | bufError
  | streamEnd
deriving DecidableEq

/-- Outcome of one engine call: successor state, status (none models the
fatal Err case), and the amounts the engine's running totals grew by. -/
structure EngineResult (σ : Type) where
  state : σ
  status : Option FlateStatus
  consumed : Nat
  produced : Nat
deriving DecidableEq

/-- DeflateReader of src/zip/deflate.rs, over an abstract DEFLATE engine
state σ; deflate_buf holds the bytes of the last refill. -/
structure DeflateReader (σ : Type) where
  position : Nat
  start : Nat
  end_ : Nat
  decompress : σ
  deflate_buf : List Nat
  deflate_size : Nat
  deflate_position : Nat
deriving DecidableEq

/-- DeflateReader::new. -/
def DeflateReader.new (σ : Type) (init : σ) (start end_ : Nat) : DeflateReader σ :=
  { position := 0, start := start, end_ := end_, decompress := init,
    deflate_buf := [], deflate_size := 0, deflate_position := 0 }

/-- The refill step at the top of the read loop: only when the internal
buffer is fully consumed, seek to start + position and read up to
min(remaining, 32) bytes into it. -/
def DeflateReader.refill (r : DeflateReader σ) (file : List Nat) : DeflateReader σ :=
  if r.deflate_position = r.deflate_size then
    let from_ := r.position + r.start
    let limit := min (r.end_ - r.start - r.position) 32
    let chunk := fileReadAt file from_ limit
    { r with deflate_buf := chunk, deflate_size := chunk.length, deflate_position := 0 }
  else r

/-- The engine input slice deflate_buf[deflate_position..deflate_size]. -/
def DeflateReader.inputSlice (r : DeflateReader σ) : List Nat :=
  (r.deflate_buf.take r.deflate_size).drop r.deflate_position

/-- Result of one iteration of the deflate read loop. -/
inductive DeflateStep (σ : Type)
  | retry (r : DeflateReader σ)
  | done (r : DeflateReader σ) (n : Nat)
  | corrupt (r : DeflateReader σ)
deriving DecidableEq

/-- The reader state carried by a loop-iteration result. -/
def DeflateStep.state : DeflateStep σ → DeflateReader σ
  | .retry r => r
  | .done r _ => r
  | .corrupt r => r

/-- One iteration of DeflateReader::read's loop: refill if the buffer is
consumed, call the engine on the input slice with a Finish flush at end of
input, log produced/consumed via the running totals, advance
deflate_position and position by the consumed amount, then dispatch on the
status: retry on successful zero-output progress with input left and a
non-empty caller buffer, report the corrupt-stream error on an engine Err,
return the produced count otherwise. -/
def DeflateReader.readStep (engine : σ → List Nat → Nat → Bool → EngineResult σ)
    (file : List Nat) (bufLen : Nat) (r0 : DeflateReader σ) : DeflateStep σ :=
  let r := r0.refill file
  let input := r.inputSlice
  let eof := input.isEmpty
  let res := engine r.decompress input bufLen eof
  let r' := { r with
    decompress := res.state
    deflate_position := r.deflate_position + res.consumed
    position := r.position + res.consumed }
  match res.status with
  | none => .corrupt r'
  | some s =>
    if (s = .ok ∨ s = .bufError) ∧ res.produced = 0 ∧ eof = false ∧ bufLen ≠ 0 then .retry r'
    else .done r' res.produced

/-- The deflate read loop: iterate readStep; fuel bounds the number of
iterations, with none modelling a still-running loop. -/
def DeflateReader.readLoop (engine : σ → List Nat → Nat → Bool → EngineResult σ)
    (file : List Nat) (bufLen : Nat) :
    Nat → DeflateReader σ → Option ((Except String Nat) × DeflateReader σ)
  | 0, _ => none
  | fuel + 1, r =>
    match DeflateReader.readStep engine file bufLen r with
    | .retry r' => DeflateReader.readLoop engine file bufLen fuel r'
    | .done r' n => some (.ok n, r')
    | .corrupt r' => some (.error "corrupt deflate stream", r')

/-- DeflateReader::read: zero at end of the compressed range, otherwise the
loop. -/
def DeflateReader.read (engine : σ → List Nat → Nat → Bool → EngineResult σ)
    (file : List Nat) (bufLen fuel : Nat) (r : DeflateReader σ) :
    Option ((Except String Nat) × DeflateReader σ) :=
  if r.end_ - r.start ≤ r.position then some (.ok 0, r)
  else DeflateReader.readLoop engine file bufLen fuel r

/-- Outcome of a call that may diverge (todo! never returns). -/
inductive SeekOutcome (α : Type)
  | diverged
  | returned (v : α)
deriving DecidableEq

/-- DeflateReader::seek is todo!(): it diverges on every input and never
produces a position. -/
def DeflateReader.seek (r : DeflateReader σ) (pos : SeekFrom) :
    SeekOutcome (Nat × DeflateReader σ) :=
  SeekOutcome.diverged

/-- The reader variants of src/zip/zip_file.rs, recording the byte range
each wraps. -/
inductive ZipFileReader
  | Stored (start end_ : Nat)
  | Deflate (start end_ : Nat)
deriving DecidableEq

/-- find_reader of src/zip/zip_file.rs: seek to position + 22, read the
local header's name length and extra-field length, compute
data start = header_start + (4 + 22 + 2 + 2) + name length + extra length,
and build the reader over [data start, data start + compressed size)
according to the compression method. -/
def find_reader (file : List Nat) (data : ZipFileData) (position : Nat) :
    Except ZipError ZipFileReader :=
  match readU16At file (position + 22), readU16At file (position + 22 + 2) with
  | some file_name_length, some extra_field_length =>
    let magic_and_header := 4 + 22 + 2 + 2
    let data_start := data.header_start + magic_and_header + file_name_length + extra_field_length
    match data.compression_method with
    | .Stored => .ok (.Stored data_start (data_start + data.compressed_size))
    | .Deflate => .ok (.Deflate data_start (data_start + data.compressed_size))
    | .Unsupported m => .error (.UnsupportedCompressionMethod m)
  | _, _ => .error .ioError

/-- ZipArchive::by_name: look the name up in the index, validate the local
file header signature at the entry's header_start, record the position just
past the signature and hand it to find_reader. -/
def by_name (entries : List (String × ZipFileData)) (file : List Nat) (name : String) :
    Except ZipError ZipFileReader :=
  match mapLookup entries name with
  | none => .error .FileNotFound
  | some data =>
    match readU32At file data.header_start with
    | none => .error .ioError
    | some signature =>
      if signature ≠ LOCAL_FILE_HEADER_SIGNATURE then
        .error (.InvalidArchive "Invalid local file header")
      else find_reader file data (data.header_start + 4)

/-! Concrete inputs used by witnesses and counterexamples. -/

/-- A minimal 22-byte archive: an EOCD record with all fields zero at
position 0. -/
def eocdBytes : List Nat :=
  [0x50, 0x4B, 0x05, 0x06, 0, 0, 0, 0, 0, 0, 0, 0, 0, 0, 0, 0, 0, 0, 0, 0, 0, 0]

/-- A 46-byte central-directory header whose compression method code is 99
(everything else zero). -/
def hdr99 : List Nat :=
  [0x50, 0x4B, 0x01, 0x02,
   0, 0, 0, 0, 0, 0, 99, 0, 0, 0, 0, 0,
   0, 0, 0, 0, 0, 0, 0, 0, 0, 0, 0, 0,
   0, 0, 0, 0, 0, 0, 0, 0, 0, 0, 0, 0, 0, 0, 0, 0, 0, 0]

/-- A trivial text decoder standing in for the external decoders. -/
def emptyDecode : List Nat → String := fun _ => ""

/-- An entry whose legacy header offset is the ZIP64 sentinel while both
legacy sizes are not, with a kind-0x0001 extra field holding one 8-byte
override. -/
def zip64CeEntry : ZipFileData :=
  { compression_method := .Stored, compressed_size := 6, uncompressed_size := 5,
    file_name := "f", extra_field := [1, 0, 8, 0, 1, 2, 3, 4, 5, 6, 7, 8],
    header_start := 0xFFFFFFFF, central_header_start := 0,
    large_file := false, aes_mode := none }

/-- A file holding one local header at offset 0 whose uncompressed-size
field bytes (offsets 22..25) are [5,0,0,0] while the name-length field at
offset 26 is 1 and the extra-length field at offset 28 is 0, followed by
the 1-byte name. -/
def ceFile : List Nat :=
  [0x50, 0x4B, 0x03, 0x04,
   0, 0, 0, 0, 0, 0, 0, 0, 0, 0,
   0, 0, 0, 0,
   5, 0, 0, 0,
   5, 0, 0, 0,
   1, 0, 0, 0,
   97]

/-- Index entry for ceFile: a Stored entry of compressed size 2 whose local
header sits at offset 0. -/
def ceData : ZipFileData :=
  { compression_method := .Stored, compressed_size := 2, uncompressed_size := 2,
    file_name := "a", extra_field := [], header_start := 0,
    central_header_start := 0, large_file := false, aes_mode := none }

/-- The same entry resolved as Deflate (for the reader-construction
witness). -/
def ceDataD : ZipFileData := { ceData with compression_method := .Deflate }

/-- A concrete engine over state σ := Nat (the running total of consumed
input): consumes its whole input, produces at most two bytes, reports
stream end. -/
def wEngine : Nat → List Nat → Nat → Bool → EngineResult Nat :=
  fun s input n _ => ⟨s + input.length, some .streamEnd, input.length, min n 2⟩

def wFile : List Nat := [0, 0, 0, 0, 0, 0, 0, 0, 0, 0, 7, 8, 9]

/-- A deflate reader over the 3-byte range [10, 13) of wFile. -/
def wR : DeflateReader Nat := ⟨0, 10, 13, 0, [], 0, 0⟩

/-- The state wR reaches after one read call with wEngine. -/
def wR' : DeflateReader Nat := ⟨3, 10, 13, 3, [7, 8, 9], 3, 3⟩

/-! Theorems. -/

/-- Claim C2: legacy directory resolution computes
archive_offset = eocd_position - directory_size - directory_offset with
checked subtractions (underflow yields the invalid-archive error), and on
success directory_start = directory_offset + archive_offset, so
archive_offset + directory_offset = directory_start and
directory_start + directory_size ≤ eocd_position, with the per-disk file
count. -/
theorem legacy_directory_counts_spec (footer : CentralDirectoryEnd) (p : Nat) :
    (footer.central_directory_size + footer.central_directory_offset ≤ p →
      getDirectoryCountsLegacy footer p =
        .ok (p - footer.central_directory_size - footer.central_directory_offset,
             footer.central_directory_offset
               + (p - footer.central_directory_size - footer.central_directory_offset),
             footer.number_of_files_on_this_disk)
      ∧ (p - footer.central_directory_size - footer.central_directory_offset)
          + footer.central_directory_offset
          = footer.central_directory_offset
              + (p - footer.central_directory_size - footer.central_directory_offset)
      ∧ (footer.central_directory_offset
          + (p - footer.central_directory_size - footer.central_directory_offset))
          + footer.central_directory_size ≤ p)
    ∧ (p < footer.central_directory_size + footer.central_directory_offset →
      getDirectoryCountsLegacy footer p =
        .error (.InvalidArchive "Invalid central directory size or offset")) := by
  constructor
  · intro h
    refine ⟨?_, by omega, by omega⟩
    unfold getDirectoryCountsLegacy checkedSub
    rw [if_pos (by omega)]
    simp only [Option.some_bind]
    rw [if_pos (by omega)]
  · intro h
    unfold getDirectoryCountsLegacy checkedSub
    by_cases h1 : footer.central_directory_size ≤ p
    · rw [if_pos h1]
      simp only [Option.some_bind]
      rw [if_neg (by omega)]
    · rw [if_neg h1]
      simp only [Option.none_bind]

/-- Witness for legacy_directory_counts_spec: a footer with size 10 and
offset 20 at EOCD position 100 resolves to archive offset 70 and directory
start 90 with count 7. -/
theorem legacy_directory_counts_witness :
    getDirectoryCountsLegacy ⟨0, 0, 7, 9, 10, 20, []⟩ 100 = .ok (70, 90, 7) := by
  have h := (legacy_directory_counts_spec ⟨0, 0, 7, 9, 10, 20, []⟩ 100).1 (by decide)
  simpa using h.1

/-- Claim C5: a stored read at position p over range [start, end) returns
no bytes once p reaches end - start; otherwise it fetches from shared-file
offset start + p, returns at most min(end - start - p, n) bytes, and
advances the position by exactly the count returned. -/
theorem plaintext_read_spec (r : PlaintextReader) (file : List Nat) (n : Nat) :
    (r.end_ - r.start ≤ r.position → r.read file n = ([], r))
    ∧ (r.position < r.end_ - r.start →
        (r.read file n).1
          = fileReadAt file (r.position + r.start) (min (r.end_ - r.start - r.position) n)
        ∧ (r.read file n).1.length ≤ min (r.end_ - r.start - r.position) n
        ∧ (r.read file n).2.position = r.position + (r.read file n).1.length
        ∧ (r.read file n).2.start = r.start
        ∧ (r.read file n).2.end_ = r.end_) := by
  constructor
  · intro h
    simp only [PlaintextReader.read, if_pos h]
  · intro h
    simp only [PlaintextReader.read, if_neg (by omega : ¬ (r.end_ - r.start ≤ r.position))]
    refine ⟨by trivial, ?_, by trivial, by trivial, by trivial⟩
    simp only [fileReadAt, List.length_take]
    omega

/-- Witness for plaintext_read_spec: the very first read of a 0-byte stored
entry returns zero bytes with no error and an unchanged reader. -/
theorem plaintext_read_witness :
    (PlaintextReader.new 5 5).read [1, 2, 3, 4, 5, 6, 7] 10
      = ([], PlaintextReader.new 5 5) :=
  (plaintext_read_spec (PlaintextReader.new 5 5) [1, 2, 3, 4, 5, 6, 7] 10).1 (by decide)

/-- Claim C9: DeflateReader::seek is todo!(): for every reader and every
seek target it diverges, and in particular never returns a position. -/
theorem deflate_seek_unimplemented (σ : Type) (r : DeflateReader σ) (pos : SeekFrom) :
    DeflateReader.seek r pos = SeekOutcome.diverged := rfl

/-- Counterexample for claim C8: the source computes the End(o) target as
(end - start) - o rather than (end - start) + o.  With length 10, End(3)
succeeds at position 7 (the claim, reading the target as 10 + 3 = 13,
demands failure), while End(-3) fails (the claim demands success at 7). -/
theorem plaintext_seek_end_counterexample :
    (PlaintextReader.new 0 10).seek (.end_ 3) = .ok (7, ⟨0, 10, 7⟩)
    ∧ (PlaintextReader.new 0 10).seek (.end_ (-3)) = .error "Invalid seek input" := by
  decide

/-- Claim C8 as amended: for a stored reader with start ≤ end and
L = end - start, Start(p) targets p, End(o) targets L - o (not L + o), and
Current(o) targets position + o; a target inside [0, L] succeeds and sets
the position to it, a target outside fails with the invalid-seek-input
error (the reader is unchanged, no state being returned).  Bounds keep the
i64/u64 conversions of the source exact. -/
theorem plaintext_seek_spec (r : PlaintextReader) (hse : r.start ≤ r.end_)
    (hbound : r.end_ ≤ 2 ^ 62) (hpos : r.position ≤ 2 ^ 62) :
    (∀ p : Nat, p ≤ 2 ^ 62 →
      (p ≤ r.end_ - r.start →
        r.seek (.start p) = .ok (p, { r with position := p }))
      ∧ (r.end_ - r.start < p →
        r.seek (.start p) = .error "Invalid seek input"))
    ∧ (∀ o : Int, o.natAbs ≤ 2 ^ 62 →
      (∀ t : Nat, (r.end_ : Int) - (r.start : Int) - o = (t : Int) →
        t ≤ r.end_ - r.start →
        r.seek (.end_ o) = .ok (t, { r with position := t }))
      ∧ (((r.end_ : Int) - (r.start : Int) - o < 0
          ∨ ((r.end_ - r.start : Nat) : Int) < (r.end_ : Int) - (r.start : Int) - o) →
        r.seek (.end_ o) = .error "Invalid seek input"))
    ∧ (∀ o : Int, o.natAbs ≤ 2 ^ 62 →
      (∀ t : Nat, (r.position : Int) + o = (t : Int) →
        t ≤ r.end_ - r.start →
        r.seek (.current o) = .ok (t, { r with position := t }))
      ∧ (((r.position : Int) + o < 0
          ∨ ((r.end_ - r.start : Nat) : Int) < (r.position : Int) + o) →
        r.seek (.current o) = .error "Invalid seek input")) := by
  refine ⟨?_, ?_, ?_⟩
  · intro p hp
    constructor
    · intro hle
      simp only [PlaintextReader.seek]
      have h1 : ((p : Int) % (2 : Int) ^ 64).toNat = p := by omega
      rw [h1, if_neg (by omega)]
    · intro hgt
      simp only [PlaintextReader.seek]
      have h1 : ((p : Int) % (2 : Int) ^ 64).toNat = p := by omega
      rw [h1, if_pos (by omega)]
  · intro o ho
    constructor
    · intro t ht htle
      simp only [PlaintextReader.seek]
      have h1 : (((r.end_ : Int) - (r.start : Int) - o) % (2 : Int) ^ 64).toNat = t := by omega
      rw [h1, if_neg (by omega)]
    · intro hout
      simp only [PlaintextReader.seek]
      rw [if_pos ?_]
      rcases hout with hneg | hbig
      · have : (((r.end_ : Int) - (r.start : Int) - o) % (2 : Int) ^ 64).toNat
            = ((r.end_ : Int) - (r.start : Int) - o + 2 ^ 64).toNat := by omega
        omega
      · omega
  · intro o ho
    constructor
    · intro t ht htle
      simp only [PlaintextReader.seek]
      have h1 : (((r.position : Int) + o) % (2 : Int) ^ 64).toNat = t := by omega
      rw [h1, if_neg (by omega)]
    · intro hout
      simp only [PlaintextReader.seek]
      rw [if_pos ?_]
      rcases hout with hneg | hbig
      · omega
      · omega

/-- Witness for plaintext_seek_spec: over range [2, 10) (length 8), End(3)
repositions to 5. -/
theorem plaintext_seek_witness :
    (⟨2, 10, 3⟩ : PlaintextReader).seek (.end_ 3) = .ok (5, ⟨2, 10, 5⟩) :=
  ((plaintext_seek_spec ⟨2, 10, 3⟩ (by decide) (by decide) (by decide)).2.1
    3 (by decide)).1 5 (by decide) (by decide)

/-- Helper: a read call preserves the stored reader's range invariant. -/
theorem plaintextRead_preserves_inv (r : PlaintextReader) (file : List Nat) (n : Nat)
    (h : r.rangeInv) : (r.read file n).2.rangeInv := by
  unfold PlaintextReader.rangeInv at *
  unfold PlaintextReader.read
  split
  · exact h
  · simp only [fileReadAt, List.length_take]
    exact ⟨h.1, by omega⟩

/-- Helper: a successful seek preserves the stored reader's range
invariant, and a failed seek returns no state at all. -/
theorem plaintextSeek_preserves_inv (r : PlaintextReader) (s : SeekFrom)
    (h : r.rangeInv) (p : Nat) (r' : PlaintextReader)
    (hs : r.seek s = .ok (p, r')) : r'.rangeInv := by
  unfold PlaintextReader.rangeInv at *
  unfold PlaintextReader.seek at hs
  cases s <;>
  · dsimp only at hs
    split at hs
    · exact absurd hs (by simp)
    · simp only [Except.ok.injEq, Prod.mk.injEq] at hs
      obtain ⟨hp, hr⟩ := hs
      subst hr
      refine ⟨h.1, ?_⟩
      dsimp only
      omega

/-- Helper: running any operation sequence preserves the range invariant. -/
theorem runOps_preserves_inv (file : List Nat) (ops : List PlainOp) (r : PlaintextReader)
    (h : r.rangeInv) : (runOps file ops r).rangeInv := by
  induction ops generalizing r with
  | nil => exact h
  | cons op rest ih =>
    cases op with
    | readOp n => exact ih _ (plaintextRead_preserves_inv r file n h)
    | seekOp s =>
      cases hs : r.seek s with
      | ok v =>
        obtain ⟨p, r'⟩ := v
        simp only [runOps, hs]
        exact ih _ (plaintextSeek_preserves_inv r s h p r' hs)
      | error e =>
        simp only [runOps, hs]
        exact ih _ h

/-- Claim C10: starting from a reader over a well-formed range, any
sequence of reads and (successful) seeks keeps the logical position within
[0, end - start]; and under the invariant every physical access of a read
starts at start + position, requests at most end - start - position bytes,
and therefore stays below end. -/
theorem plaintext_range_invariant (file : List Nat) (start end_ : Nat)
    (h : start ≤ end_) (ops : List PlainOp) :
    (runOps file ops (PlaintextReader.new start end_)).rangeInv
    ∧ (∀ (r : PlaintextReader) (n : Nat), r.rangeInv →
        r.position < r.end_ - r.start →
        (r.read file n).1
          = fileReadAt file (r.start + r.position) (min (r.end_ - r.start - r.position) n)
        ∧ (r.start + r.position) + min (r.end_ - r.start - r.position) n ≤ r.end_) := by
  constructor
  · refine runOps_preserves_inv file ops _ ?_
    unfold PlaintextReader.rangeInv PlaintextReader.new
    exact ⟨h, Nat.zero_le _⟩
  · intro r n hr hlt
    constructor
    · unfold PlaintextReader.read
      rw [if_neg (by omega)]
      simp only [Nat.add_comm r.position r.start]
    · unfold PlaintextReader.rangeInv at hr
      omega

/-- Witness for plaintext_range_invariant: a read, a seek and an oversized
read over range [5, 9) leave the logical position within bounds. -/
theorem plaintext_range_invariant_witness :
    (runOps wFile [.readOp 3, .seekOp (.start 1), .readOp 100]
      (PlaintextReader.new 5 9)).rangeInv :=
  (plaintext_range_invariant wFile 5 9 (by decide)
    [.readOp 3, .seekOp (.start 1), .readOp 100]).1

/-- Helper: the refill step never changes the logical position or the
engine state. -/
theorem deflate_refill_preserves (r : DeflateReader σ) (file : List Nat) :
    (r.refill file).position = r.position ∧ (r.refill file).decompress = r.decompress := by
  unfold DeflateReader.refill
  split
  · exact ⟨rfl, rfl⟩
  · exact ⟨rfl, rfl⟩

/-- Helper: one loop iteration advances the position by exactly the amount
the engine's running input total grew by. -/
theorem deflate_readStep_consumed (engine : σ → List Nat → Nat → Bool → EngineResult σ)
    (totalIn : σ → Nat)
    (hengine : ∀ s input n f,
      totalIn (engine s input n f).state = totalIn s + (engine s input n f).consumed)
    (file : List Nat) (bufLen : Nat) (r : DeflateReader σ) :
    (DeflateReader.readStep engine file bufLen r).state.position + totalIn r.decompress
      = r.position
        + totalIn (DeflateReader.readStep engine file bufLen r).state.decompress := by
  obtain ⟨hp, hd⟩ := deflate_refill_preserves r file
  have hd2 : totalIn (r.refill file).decompress = totalIn r.decompress := by rw [hd]
  simp only [DeflateReader.readStep]
  have hkey := hengine (r.refill file).decompress (r.refill file).inputSlice bufLen
    (r.refill file).inputSlice.isEmpty
  split
  · simp only [DeflateStep.state]
    omega
  · split
    · simp only [DeflateStep.state]
      omega
    · simp only [DeflateStep.state]
      omega

/-- Helper: whenever the loop returns a result, the position has advanced
by exactly the growth of the engine's running input total. -/
theorem deflate_readLoop_consumed (engine : σ → List Nat → Nat → Bool → EngineResult σ)
    (totalIn : σ → Nat)
    (hengine : ∀ s input n f,
      totalIn (engine s input n f).state = totalIn s + (engine s input n f).consumed)
    (file : List Nat) (bufLen : Nat) :
    ∀ (fuel : Nat) (r r' : DeflateReader σ) (res : Except String Nat),
      DeflateReader.readLoop engine file bufLen fuel r = some (res, r') →
      r'.position + totalIn r.decompress = r.position + totalIn r'.decompress := by
  intro fuel
  induction fuel with
  | zero => intro r r' res h; exact absurd h (by simp [DeflateReader.readLoop])
  | succ fuel ih =>
    intro r r' res h
    have hstep := deflate_readStep_consumed engine totalIn hengine file bufLen r
    unfold DeflateReader.readLoop at h
    cases hs : DeflateReader.readStep engine file bufLen r with
    | retry r1 =>
      rw [hs] at h
      have h1 := ih r1 r' res h
      rw [hs] at hstep
      simp only [DeflateStep.state] at hstep
      omega
    | done r1 n =>
      rw [hs] at h
      simp only [Option.some.injEq, Prod.mk.injEq] at h
      obtain ⟨-, h2⟩ := h
      subst h2
      rw [hs] at hstep
      simpa [DeflateStep.state] using hstep
    | corrupt r1 =>
      rw [hs] at h
      simp only [Option.some.injEq, Prod.mk.injEq] at h
      obtain ⟨-, h2⟩ := h
      subst h2
      rw [hs] at hstep
      simpa [DeflateStep.state] using hstep

/-- Claim C6: (a) whenever a read call returns, the logical position has
advanced by exactly the number of compressed input bytes the engine
consumed during that call, measured by the growth of the engine's running
input total (never by the output amount); (b) when a decode step succeeds
with zero output while input remains and the caller buffer is non-empty,
the loop retries immediately with the stepped state instead of returning. -/
theorem deflate_read_progress_spec (σ : Type)
    (engine : σ → List Nat → Nat → Bool → EngineResult σ) (totalIn : σ → Nat)
    (hengine : ∀ s input n f,
      totalIn (engine s input n f).state = totalIn s + (engine s input n f).consumed)
    (file : List Nat) (bufLen fuel : Nat) :
    (∀ (r r' : DeflateReader σ) (res : Except String Nat),
      DeflateReader.read engine file bufLen fuel r = some (res, r') →
      r'.position + totalIn r.decompress = r.position + totalIn r'.decompress)
    ∧ (∀ r : DeflateReader σ,
      ((engine (r.refill file).decompress (r.refill file).inputSlice bufLen
          (r.refill file).inputSlice.isEmpty).status = some .ok
        ∨ (engine (r.refill file).decompress (r.refill file).inputSlice bufLen
            (r.refill file).inputSlice.isEmpty).status = some .bufError) →
      (engine (r.refill file).decompress (r.refill file).inputSlice bufLen
        (r.refill file).inputSlice.isEmpty).produced = 0 →
      (r.refill file).inputSlice ≠ [] →
      bufLen ≠ 0 →
      DeflateReader.readStep engine file bufLen r
        = .retry { r.refill file with
            decompress := (engine (r.refill file).decompress (r.refill file).inputSlice bufLen
              (r.refill file).inputSlice.isEmpty).state
            deflate_position := (r.refill file).deflate_position
              + (engine (r.refill file).decompress (r.refill file).inputSlice bufLen
                  (r.refill file).inputSlice.isEmpty).consumed
            position := (r.refill file).position
              + (engine (r.refill file).decompress (r.refill file).inputSlice bufLen
                  (r.refill file).inputSlice.isEmpty).consumed }
      ∧ DeflateReader.readLoop engine file bufLen (fuel + 1) r
        = DeflateReader.readLoop engine file bufLen fuel
            { r.refill file with
              decompress := (engine (r.refill file).decompress (r.refill file).inputSlice bufLen
                (r.refill file).inputSlice.isEmpty).state
              deflate_position := (r.refill file).deflate_position
                + (engine (r.refill file).decompress (r.refill file).inputSlice bufLen
                    (r.refill file).inputSlice.isEmpty).consumed
              position := (r.refill file).position
                + (engine (r.refill file).decompress (r.refill file).inputSlice bufLen
                    (r.refill file).inputSlice.isEmpty).consumed }) := by
  constructor
  · intro r r' res h
    unfold DeflateReader.read at h
    split at h
    · simp only [Option.some.injEq, Prod.mk.injEq] at h
      obtain ⟨-, h2⟩ := h
      subst h2
      omega
    · exact deflate_readLoop_consumed engine totalIn hengine file bufLen fuel r r' res h
  · intro r hstatus hprod hinput hbuf
    have hstep : DeflateReader.readStep engine file bufLen r
        = .retry { r.refill file with
            decompress := (engine (r.refill file).decompress (r.refill file).inputSlice bufLen
              (r.refill file).inputSlice.isEmpty).state
            deflate_position := (r.refill file).deflate_position
              + (engine (r.refill file).decompress (r.refill file).inputSlice bufLen
                  (r.refill file).inputSlice.isEmpty).consumed
            position := (r.refill file).position
              + (engine (r.refill file).decompress (r.refill file).inputSlice bufLen
                  (r.refill file).inputSlice.isEmpty).consumed } := by
      simp only [DeflateReader.readStep]
      have heof : (r.refill file).inputSlice.isEmpty = false := by
        simpa [List.isEmpty_iff] using hinput
      rcases hstatus with hst | hst
      · rw [hst]
        dsimp only
        rw [if_pos ⟨Or.inl rfl, hprod, heof, hbuf⟩]
      · rw [hst]
        dsimp only
        rw [if_pos ⟨Or.inr rfl, hprod, heof, hbuf⟩]
    refine ⟨hstep, ?_⟩
    conv_lhs => simp only [DeflateReader.readLoop]
    rw [hstep]

/-- Witness for deflate_read_progress_spec: one read over the 3-byte range
[10, 13) with an engine that consumes all input advances the position by
the 3 consumed bytes. -/
theorem deflate_read_progress_witness :
    wR'.position + wR.decompress = wR.position + wR'.decompress :=
  (deflate_read_progress_spec Nat wEngine (fun s => s) (fun _ _ _ _ => rfl)
    wFile 5 1).1 wR wR' (.ok 2) (by decide)

/-- Helper: a u32 read succeeds whenever four bytes are available. -/
theorem readU32At_in_range (bytes : List Nat) (p : Nat) (h : p + 4 ≤ bytes.length) :
    readU32At bytes p = some (numAt bytes p 4) := by
  simp [readU32At, readNumAt, readBytesAt, numAt, h]

/-- Helper: the scan returns the parse at any position carrying the
signature. -/
theorem findEocdLoop_hit (bytes : List Nat) (bound pos : Nat)
    (h4 : readU32At bytes pos = some CENTRAL_DIRECTORY_END_SIGNATURE) :
    findEocdLoop bytes bound pos = (parseCde bytes pos).map (fun cde => (cde, pos)) := by
  cases pos <;> simp [findEocdLoop, h4]

/-- Helper: a non-matching word at a positive position above the bound
steps the scan down one byte. -/
theorem findEocdLoop_miss (bytes : List Nat) (bound p : Nat) (w : Nat)
    (h4 : readU32At bytes (p + 1) = some w)
    (hw : w ≠ CENTRAL_DIRECTORY_END_SIGNATURE) (hb : bound ≤ p) :
    findEocdLoop bytes bound (p + 1) = findEocdLoop bytes bound p := by
  simp [findEocdLoop, h4, hw, hb]

/-- Helper: a non-matching word at position zero ends the scan with the
not-found error. -/
theorem findEocdLoop_stop_zero (bytes : List Nat) (bound : Nat) (w : Nat)
    (h4 : readU32At bytes 0 = some w) (hw : w ≠ CENTRAL_DIRECTORY_END_SIGNATURE) :
    findEocdLoop bytes bound 0
      = .error (.InvalidArchive "Could not find central directory end") := by
  simp [findEocdLoop, h4, hw]

/-- Helper: a non-matching word just above the bound ends the scan with the
not-found error. -/
theorem findEocdLoop_stop_bound (bytes : List Nat) (bound p : Nat) (w : Nat)
    (h4 : readU32At bytes (p + 1) = some w)
    (hw : w ≠ CENTRAL_DIRECTORY_END_SIGNATURE) (hb : ¬ bound ≤ p) :
    findEocdLoop bytes bound (p + 1)
      = .error (.InvalidArchive "Could not find central directory end") := by
  simp [findEocdLoop, h4, hw, hb]

/-- Helper: descending from any window position above the topmost candidate
reaches that candidate's parse. -/
theorem findEocdLoop_reaches (bytes : List Nat) (p : Nat)
    (h22 : 22 ≤ bytes.length)
    (hc : eocdCandidate bytes p) (hmax : ∀ q, eocdCandidate bytes q → q ≤ p) :
    ∀ (k pos : Nat), pos = p + k → pos ≤ bytes.length - 22 →
      findEocdLoop bytes (bytes.length - (22 + 65535)) pos
        = (parseCde bytes p).map (fun cde => (cde, p)) := by
  obtain ⟨hc1, hc2, hc3⟩ := hc
  intro k
  induction k with
  | zero =>
    intro pos hpos hle
    have h := findEocdLoop_hit bytes (bytes.length - (22 + 65535)) p hc3
    rw [hpos, Nat.add_zero]
    exact h
  | succ k ih =>
    intro pos hpos hle
    have hpos1 : pos = (p + k) + 1 := by omega
    subst hpos1
    have h4 : readU32At bytes (p + k + 1) = some (numAt bytes (p + k + 1) 4) :=
      readU32At_in_range bytes (p + k + 1) (by omega)
    have hw : numAt bytes (p + k + 1) 4 ≠ CENTRAL_DIRECTORY_END_SIGNATURE := by
      intro hweq
      have hcand : eocdCandidate bytes (p + k + 1) := by
        refine ⟨by omega, by omega, ?_⟩
        rw [h4, hweq]
      have h5 := hmax _ hcand
      omega
    rw [findEocdLoop_miss bytes _ (p + k) _ h4 hw (by omega)]
    exact ih (p + k) rfl (by omega)

/-- Helper: when no candidate exists the scan ends with the not-found
error from any position inside the window. -/
theorem findEocdLoop_no_candidate (bytes : List Nat)
    (h22 : 22 ≤ bytes.length) (hnone : ∀ q, ¬ eocdCandidate bytes q) :
    ∀ pos : Nat, bytes.length - (22 + 65535) ≤ pos → pos ≤ bytes.length - 22 →
      findEocdLoop bytes (bytes.length - (22 + 65535)) pos
        = .error (.InvalidArchive "Could not find central directory end") := by
  intro pos
  induction pos using Nat.strong_induction_on with
  | _ pos ih =>
    intro hlo hhi
    have h4 : readU32At bytes pos = some (numAt bytes pos 4) :=
      readU32At_in_range bytes pos (by omega)
    have hw : numAt bytes pos 4 ≠ CENTRAL_DIRECTORY_END_SIGNATURE := by
      intro hweq
      exact hnone pos ⟨hlo, hhi, by rw [h4, hweq]⟩
    cases pos with
    | zero => exact findEocdLoop_stop_zero bytes _ _ h4 hw
    | succ q =>
      by_cases hb : bytes.length - (22 + 65535) ≤ q
      · rw [findEocdLoop_miss bytes _ q _ h4 hw hb]
        exact ih q (by omega) hb (by omega)
      · exact findEocdLoop_stop_bound bytes _ q _ h4 hw hb

/-- Claim C1: find_and_parse fails with the invalid-archive error on inputs
shorter than 22 bytes; otherwise it scans backward from length - 22 down to
max(0, length - 22 - 65535), parses the EOCD at the first (highest)
signature-carrying position and returns that position, and reports the
could-not-find error when no candidate exists. -/
theorem eocd_find_and_parse_spec (bytes : List Nat) :
    (bytes.length < 22 →
      find_and_parse bytes = .error (.InvalidArchive "Invalid zip header"))
    ∧ (∀ p : Nat, 22 ≤ bytes.length → eocdCandidate bytes p →
      (∀ q, eocdCandidate bytes q → q ≤ p) →
      find_and_parse bytes = (parseCde bytes p).map (fun cde => (cde, p)))
    ∧ (22 ≤ bytes.length → (∀ q, ¬ eocdCandidate bytes q) →
      find_and_parse bytes
        = .error (.InvalidArchive "Could not find central directory end")) := by
  refine ⟨?_, ?_, ?_⟩
  · intro h
    simp [find_and_parse, h]
  · intro p h22 hc hmax
    have hple : p ≤ bytes.length - 22 := hc.2.1
    have := findEocdLoop_reaches bytes p h22 hc hmax (bytes.length - 22 - p)
      (bytes.length - 22) (by omega) (by omega)
    simpa [find_and_parse, Nat.not_lt.mpr h22] using this
  · intro h22 hnone
    have := findEocdLoop_no_candidate bytes h22 hnone (bytes.length - 22)
      (by omega) (by omega)
    simpa [find_and_parse, Nat.not_lt.mpr h22] using this

/-- Witness for eocd_find_and_parse_spec: the 22-byte archive consisting of
a bare all-zero EOCD record is found at position 0 and parsed. -/
theorem eocd_find_and_parse_witness :
    find_and_parse eocdBytes = .ok (⟨0, 0, 0, 0, 0, 0, []⟩, 0) := by
  have h := (eocd_find_and_parse_spec eocdBytes).2.1 0 (by decide) (by decide)
    (fun q hq => by
      have h1 : q ≤ eocdBytes.length - 22 := hq.2.1
      have h2 : eocdBytes.length = 22 := by decide
      omega)
  rw [h]
  decide

/-- Counterexample for claim C7: the name-length and extra-length fields
are read 22 bytes past the position recorded after the 4-byte signature,
that is 26 bytes past the header start, not 22.  In ceFile the bytes at
header offset 22 hold 5 while the name-length field at offset 26 holds 1:
the reader is built over [31, 33) (from 0 + 30 + 1 + 0), not over [35, 37)
as reading the fields at +22 would give. -/
theorem local_header_field_offset_counterexample :
    by_name [("a", ceData)] ceFile "a" = .ok (.Stored 31 33)
    ∧ by_name [("a", ceData)] ceFile "a" ≠ .ok (.Stored 35 37) := by
  decide

/-- Claim C7 as amended: for a name present in the index, by_name validates
the local-file-header signature at the entry's archive-offset-corrected
header_start (invalid-archive error on mismatch), reads the name-length and
extra-length fields at +22 from the post-signature position (+26 and +28
from the header start), computes data start = header_start + 30 +
name_length + extra_length, and builds a Stored or Deflate reader over
exactly [data start, data start + compressed_size) per the entry's
compression method. -/
theorem entry_resolution_spec (entries : List (String × ZipFileData)) (file : List Nat)
    (name : String) (data : ZipFileData) (hlook : mapLookup entries name = some data) :
    (∀ s : Nat, readU32At file data.header_start = some s →
      s ≠ LOCAL_FILE_HEADER_SIGNATURE →
      by_name entries file name = .error (.InvalidArchive "Invalid local file header"))
    ∧ (readU32At file data.header_start = some LOCAL_FILE_HEADER_SIGNATURE →
      ∀ nl el : Nat,
        readU16At file (data.header_start + 26) = some nl →
        readU16At file (data.header_start + 28) = some el →
        (data.compression_method = .Stored →
          by_name entries file name
            = .ok (.Stored (data.header_start + 30 + nl + el)
                (data.header_start + 30 + nl + el + data.compressed_size)))
        ∧ (data.compression_method = .Deflate →
          by_name entries file name
            = .ok (.Deflate (data.header_start + 30 + nl + el)
                (data.header_start + 30 + nl + el + data.compressed_size)))) := by
  constructor
  · intro s hs hne
    simp only [by_name, hlook, hs]
    rw [if_pos hne]
  · intro hsig nl el hnl hel
    have e26 : data.header_start + 4 + 22 = data.header_start + 26 := by omega
    have e28 : data.header_start + 4 + 22 + 2 = data.header_start + 28 := by omega
    constructor
    · intro hm
      simp only [by_name, hlook, hsig]
      rw [if_neg (by simp)]
      simp only [find_reader, e26, e28, hnl, hel, hm]
    · intro hm
      simp only [by_name, hlook, hsig]
      rw [if_neg (by simp)]
      simp only [find_reader, e26, e28, hnl, hel, hm]

/-- Witness for entry_resolution_spec: the same local header resolved as a
Deflate entry yields a Deflate reader over [31, 33). -/
theorem entry_resolution_witness :
    by_name [("d", ceDataD)] ceFile "d" = .ok (.Deflate 31 33) := by
  have h := ((entry_resolution_spec [("d", ceDataD)] ceFile "d" ceDataD
    (by decide)).2 (by decide) 1 0 (by decide) (by decide)).2 (by decide)
  simpa using h

/-- Helper: afterExtraField never returns an entry whose method is
Unsupported. -/
theorem afterExtraField_ok_method (result : ZipFileData) (ao endPos : Nat)
    (d : ZipFileData) (pos' : Nat)
    (h : afterExtraField result ao endPos = (.ok d, pos')) (m : Nat) :
    d.compression_method ≠ .Unsupported m := by
  unfold afterExtraField at h
  split at h
  · simp at h
  · split at h
    · simp only [Prod.mk.injEq, Except.ok.injEq] at h
      obtain ⟨h1, -⟩ := h
      subst h1
      rename_i hne _
      intro hcontra
      exact hne m hcontra
    · simp at h

/-- Helper: a successfully parsed central header never carries an
Unsupported compression method. -/
theorem centralHeaderToZipFile_ok_method (u c : List Nat → String) (bytes : List Nat)
    (pos ao : Nat) (d : ZipFileData) (pos' : Nat)
    (h : centralHeaderToZipFile u c bytes pos ao = (.ok d, pos')) (m : Nat) :
    d.compression_method ≠ .Unsupported m := by
  unfold centralHeaderToZipFile at h
  split at h
  · simp at h
  · split at h
    · simp at h
    · simp only [centralHeaderInner] at h
      split at h
      · split at h
        · split at h
          · exact afterExtraField_ok_method _ _ _ _ _ h m
          · exact afterExtraField_ok_method _ _ _ _ _ h m
          · simp at h
        · simp at h
      · simp at h

/-- Helper: looking up the key just inserted yields the inserted value. -/
theorem mapLookup_insert_self (m : List (String × ZipFileData)) (k : String)
    (v : ZipFileData) : mapLookup (mapInsert m k v) k = some v := by
  simp [mapInsert, mapLookup]

/-- Helper: filtering out one key leaves lookups of other keys unchanged. -/
theorem mapLookup_filter_ne (m : List (String × ZipFileData)) (k k' : String)
    (h : k' ≠ k) :
    mapLookup (m.filter (fun p => ¬ (p.1 = k))) k' = mapLookup m k' := by
  induction m with
  | nil => rfl
  | cons hd tl ih =>
    obtain ⟨a, b⟩ := hd
    simp only [List.filter_cons]
    by_cases hak : a = k
    · rw [if_neg (by simp [hak])]
      rw [ih]
      simp only [mapLookup]
      rw [if_neg (fun hq => h (hak ▸ hq).symm)]
    · rw [if_pos (by simpa using hak)]
      simp only [mapLookup]
      by_cases hak' : a = k'
      · rw [if_pos hak', if_pos hak']
      · rw [if_neg hak', if_neg hak']
        exact ih

/-- Helper: lookups under a different key are unaffected by an insert. -/
theorem mapLookup_insert_ne (m : List (String × ZipFileData)) (k k' : String)
    (v : ZipFileData) (h : k' ≠ k) :
    mapLookup (mapInsert m k v) k' = mapLookup m k' := by
  unfold mapInsert
  simp only [mapLookup]
  rw [if_neg (fun hq => h hq.symm)]
  exact mapLookup_filter_ne m k k' h

/-- Claim C3: during enumeration an unsupported-compression-method parse
failure skips just that entry and continues at the next header; any other
parse failure aborts with that error; a parsed entry is inserted keyed by
its name with last-write-wins replacement; and a parse can never succeed
with an Unsupported method (the classification is raised instead). -/
theorem central_directory_enumeration_spec (u c : List Nat → String)
    (ao : Nat) (bytes : List Nat) (pos pos' : Nat) (n : Nat)
    (entries : List (String × ZipFileData)) :
    (∀ m : Nat,
      centralHeaderToZipFile u c bytes pos ao
        = (.error (.UnsupportedCompressionMethod m), pos') →
      enumerateEntries u c ao bytes (n + 1) pos entries
        = enumerateEntries u c ao bytes n pos' entries)
    ∧ (∀ e : ZipError,
      centralHeaderToZipFile u c bytes pos ao = (.error e, pos') →
      (∀ m : Nat, e ≠ .UnsupportedCompressionMethod m) →
      enumerateEntries u c ao bytes (n + 1) pos entries = .error e)
    ∧ (∀ d : ZipFileData,
      centralHeaderToZipFile u c bytes pos ao = (.ok d, pos') →
      enumerateEntries u c ao bytes (n + 1) pos entries
        = enumerateEntries u c ao bytes n pos' (mapInsert entries d.file_name d))
    ∧ (∀ (d : ZipFileData) (m : Nat),
      centralHeaderToZipFile u c bytes pos ao = (.ok d, pos') →
      d.compression_method ≠ .Unsupported m)
    ∧ (∀ (k : String) (v : ZipFileData),
      mapLookup (mapInsert entries k v) k = some v
      ∧ ∀ k' : String, k' ≠ k →
        mapLookup (mapInsert entries k v) k' = mapLookup entries k') := by
  refine ⟨?_, ?_, ?_, ?_, ?_⟩
  · intro m h
    simp only [enumerateEntries, h]
  · intro e h hne
    cases e <;> simp only [enumerateEntries, h]
    rename_i m
    exact absurd rfl (hne m)
  · intro d h
    simp only [enumerateEntries, h]
  · intro d m h
    exact centralHeaderToZipFile_ok_method u c bytes pos ao d pos' h m
  · intro k v
    exact ⟨mapLookup_insert_self entries k v,
      fun k' hk' => mapLookup_insert_ne entries k k' v hk'⟩

/-- Witness for central_directory_enumeration_spec: enumerating the single
method-99 header of hdr99 skips the entry and completes with an empty
index. -/
theorem central_directory_enumeration_witness :
    enumerateEntries emptyDecode emptyDecode 0 hdr99 1 0 [] = .ok [] := by
  have h := (central_directory_enumeration_spec emptyDecode emptyDecode 0 hdr99
    0 46 0 []).1 99 (by decide)
  rw [h]
  decide

/-- Counterexample for claim C4: consuming the header-offset override does
not set large_file.  For an entry whose only sentinel-valued legacy field
is the header offset, the 8-byte override is consumed (header_start
becomes 0x0807060504030201) yet large_file stays false, where the claim
demands true. -/
theorem zip64_extra_counterexample :
    (parse_extra_field zip64CeEntry).1.header_start = 578437695752307201
    ∧ (parse_extra_field zip64CeEntry).1.large_file = false := by
  decide

/-- Helper: reading n bytes at the end of a known prefix returns the next
n-byte block. -/
theorem readNumAt_append (pre l post : List Nat) (n : Nat) (hn : l.length = n) :
    readNumAt (pre ++ (l ++ post)) pre.length n = some (leNum l) := by
  unfold readNumAt readBytesAt
  rw [if_pos (by simp [List.length_append]; omega)]
  rw [List.drop_left, ← hn, List.take_left]
  rfl

/-- Helper: the extra-field loop exits as soon as the cursor reaches the
end of the block. -/
theorem parseExtraLoop_at_end (extra : List Nat) (fuel : Nat) (f : ZipFileData)
    (pos : Nat) (h : extra.length ≤ pos) :
    parseExtraLoop extra fuel f pos = (f, .ok ()) := by
  cases fuel with
  | zero => rfl
  | succ fuel =>
    rw [parseExtraLoop]
    exact if_neg (by omega)

/-- Helper: evaluation of the first ZIP64 if-block when the legacy
uncompressed size is sentinel-valued and the 8-byte read succeeds. -/
theorem zip64UncompressedStep_read (f : ZipFileData) (extra : List Nat) (p : Nat)
    (lenLeft : Int) (v : Nat) (h : f.uncompressed_size = ZIP64_BYTES_THR)
    (hr : readNumAt extra p 8 = some v) :
    zip64UncompressedStep f extra p lenLeft
      = ({ f with large_file := true, uncompressed_size := v }, p + 8, lenLeft - 8, .ok ()) := by
  unfold zip64UncompressedStep
  rw [if_pos h, hr]

/-- Helper: the first ZIP64 if-block is the identity when the legacy
uncompressed size is not sentinel-valued. -/
theorem zip64UncompressedStep_keep (f : ZipFileData) (extra : List Nat) (p : Nat)
    (lenLeft : Int) (h : ¬ f.uncompressed_size = ZIP64_BYTES_THR) :
    zip64UncompressedStep f extra p lenLeft = (f, p, lenLeft, .ok ()) := by
  unfold zip64UncompressedStep
  rw [if_neg h]

/-- Helper: evaluation of the second ZIP64 if-block when the legacy
compressed size is sentinel-valued and the 8-byte read succeeds. -/
theorem zip64CompressedStep_read (f : ZipFileData) (extra : List Nat) (p : Nat)
    (lenLeft : Int) (v : Nat) (h : f.compressed_size = ZIP64_BYTES_THR)
    (hr : readNumAt extra p 8 = some v) :
    zip64CompressedStep f extra p lenLeft
      = ({ f with large_file := true, compressed_size := v }, p + 8, lenLeft - 8, .ok ()) := by
  unfold zip64CompressedStep
  rw [if_pos h, hr]

/-- Helper: the second ZIP64 if-block is the identity when the legacy
compressed size is not sentinel-valued. -/
theorem zip64CompressedStep_keep (f : ZipFileData) (extra : List Nat) (p : Nat)
    (lenLeft : Int) (h : ¬ f.compressed_size = ZIP64_BYTES_THR) :
    zip64CompressedStep f extra p lenLeft = (f, p, lenLeft, .ok ()) := by
  unfold zip64CompressedStep
  rw [if_neg h]

/-- Helper: evaluation of the third ZIP64 if-block when the legacy header
offset is sentinel-valued and the 8-byte read succeeds; large_file is not
touched. -/
theorem zip64HeaderStep_read (f : ZipFileData) (extra : List Nat) (p : Nat)
    (lenLeft : Int) (v : Nat) (h : f.header_start = ZIP64_BYTES_THR)
    (hr : readNumAt extra p 8 = some v) :
    zip64HeaderStep f extra p lenLeft
      = ({ f with header_start := v }, p + 8, lenLeft - 8, .ok ()) := by
  unfold zip64HeaderStep
  rw [if_pos h, hr]

/-- Helper: the third ZIP64 if-block is the identity when the legacy header
offset is not sentinel-valued. -/
theorem zip64HeaderStep_keep (f : ZipFileData) (extra : List Nat) (p : Nat)
    (lenLeft : Int) (h : ¬ f.header_start = ZIP64_BYTES_THR) :
    zip64HeaderStep f extra p lenLeft = (f, p, lenLeft, .ok ()) := by
  unfold zip64HeaderStep
  rw [if_neg h]

/-- Helper: composing the three if-blocks when each succeeds. -/
theorem zip64ExtraBlock_steps (f f1 f2 f3 : ZipFileData) (extra : List Nat)
    (p p1 p2 p3 : Nat) (l l1 l2 l3 : Int)
    (e1 : zip64UncompressedStep f extra p l = (f1, p1, l1, .ok ()))
    (e2 : zip64CompressedStep f1 extra p1 l1 = (f2, p2, l2, .ok ()))
    (e3 : zip64HeaderStep f2 extra p2 l2 = (f3, p3, l3, .ok ())) :
    zip64ExtraBlock f extra p l = (f3, p3, l3, .ok ()) := by
  rw [zip64ExtraBlock, e1]
  dsimp only
  rw [e2]
  dsimp only
  exact e3

/-- Helper: full description of the kind-0x0001 arm on a block laid out as
the overrides for exactly the sentinel-valued fields, in the fixed order
uncompressed size, compressed size, header offset: each sentinel field is
replaced by its 8-byte override, the size overrides set large_file, the
header-offset override does not, and non-sentinel fields are untouched. -/
theorem zip64ExtraBlock_spec (f : ZipFileData) (pre : List Nat) (lenLeft : Int)
    (pu pc ph : List Nat) (hu : pu.length = 8) (hc : pc.length = 8) (hh : ph.length = 8) :
    zip64ExtraBlock f
      (pre ++ ((if f.uncompressed_size = ZIP64_BYTES_THR then pu else [])
        ++ ((if f.compressed_size = ZIP64_BYTES_THR then pc else [])
          ++ (if f.header_start = ZIP64_BYTES_THR then ph else []))))
      pre.length lenLeft
    = ({ f with
          uncompressed_size :=
            if f.uncompressed_size = ZIP64_BYTES_THR then leNum pu else f.uncompressed_size
          compressed_size :=
            if f.compressed_size = ZIP64_BYTES_THR then leNum pc else f.compressed_size
          header_start :=
            if f.header_start = ZIP64_BYTES_THR then leNum ph else f.header_start
          large_file :=
            if f.uncompressed_size = ZIP64_BYTES_THR ∨ f.compressed_size = ZIP64_BYTES_THR
            then true else f.large_file },
        pre.length
          + ((if f.uncompressed_size = ZIP64_BYTES_THR then 8 else 0)
            + ((if f.compressed_size = ZIP64_BYTES_THR then 8 else 0)
              + (if f.header_start = ZIP64_BYTES_THR then 8 else 0))),
        lenLeft
          - ((if f.uncompressed_size = ZIP64_BYTES_THR then (8 : Int) else 0)
            + ((if f.compressed_size = ZIP64_BYTES_THR then (8 : Int) else 0)
              + (if f.header_start = ZIP64_BYTES_THR then (8 : Int) else 0))),
        .ok ()) := by
  by_cases h1 : f.uncompressed_size = ZIP64_BYTES_THR <;>
    by_cases h2 : f.compressed_size = ZIP64_BYTES_THR <;>
      by_cases h3 : f.header_start = ZIP64_BYTES_THR
  · simp only [if_pos h1, if_pos h2, if_pos h3, if_pos (Or.inl h1)]
    have hr1 := readNumAt_append pre pu (pc ++ ph) 8 hu
    have hr2 : readNumAt (pre ++ (pu ++ (pc ++ ph))) (pre.length + 8) 8
        = some (leNum pc) := by
      have h := readNumAt_append (pre ++ pu) pc ph 8 hc
      rw [List.append_assoc] at h
      rwa [List.length_append, hu] at h
    have hr3 : readNumAt (pre ++ (pu ++ (pc ++ ph))) (pre.length + 8 + 8) 8
        = some (leNum ph) := by
      have h := readNumAt_append (pre ++ pu ++ pc) ph [] 8 hh
      rw [List.append_assoc, List.append_assoc, List.append_nil] at h
      rwa [List.length_append, List.length_append, hu, hc] at h
    have e1 := zip64UncompressedStep_read f (pre ++ (pu ++ (pc ++ ph)))
      pre.length lenLeft (leNum pu) h1 hr1
    have e2 := zip64CompressedStep_read
      { f with large_file := true, uncompressed_size := leNum pu }
      (pre ++ (pu ++ (pc ++ ph))) (pre.length + 8) (lenLeft - 8) (leNum pc) h2 hr2
    have e3 := zip64HeaderStep_read
      { { f with large_file := true, uncompressed_size := leNum pu } with
        large_file := true, compressed_size := leNum pc }
      (pre ++ (pu ++ (pc ++ ph))) (pre.length + 8 + 8) (lenLeft - 8 - 8) (leNum ph) h3 hr3
    rw [zip64ExtraBlock_steps _ _ _ _ _ _ _ _ _ _ _ _ _ e1 e2 e3]
    simp only [Prod.mk.injEq]
    refine ⟨?_, ?_, ?_, ?_⟩ <;> first | trivial | omega
  · simp only [if_pos h1, if_pos h2, if_neg h3, if_pos (Or.inl h1), List.append_nil]
    have hr1 := readNumAt_append pre pu (pc ++ []) 8 hu
    rw [List.append_nil] at hr1
    have hr2 : readNumAt (pre ++ (pu ++ pc)) (pre.length + 8) 8
        = some (leNum pc) := by
      have h := readNumAt_append (pre ++ pu) pc [] 8 hc
      rw [List.append_assoc, List.append_nil] at h
      rwa [List.length_append, hu] at h
    have e1 := zip64UncompressedStep_read f (pre ++ (pu ++ pc))
      pre.length lenLeft (leNum pu) h1 hr1
    have e2 := zip64CompressedStep_read
      { f with large_file := true, uncompressed_size := leNum pu }
      (pre ++ (pu ++ pc)) (pre.length + 8) (lenLeft - 8) (leNum pc) h2 hr2
    have e3 := zip64HeaderStep_keep
      { { f with large_file := true, uncompressed_size := leNum pu } with
        large_file := true, compressed_size := leNum pc }
      (pre ++ (pu ++ pc)) (pre.length + 8 + 8) (lenLeft - 8 - 8) h3
    rw [zip64ExtraBlock_steps _ _ _ _ _ _ _ _ _ _ _ _ _ e1 e2 e3]
    simp only [Prod.mk.injEq]
    refine ⟨?_, ?_, ?_, ?_⟩ <;> first | trivial | omega
  · simp only [if_pos h1, if_neg h2, if_pos h3, if_pos (Or.inl h1), List.nil_append]
    have hr1 := readNumAt_append pre pu ph 8 hu
    have hr3 : readNumAt (pre ++ (pu ++ ph)) (pre.length + 8) 8
        = some (leNum ph) := by
      have h := readNumAt_append (pre ++ pu) ph [] 8 hh
      rw [List.append_assoc, List.append_nil] at h
      rwa [List.length_append, hu] at h
    have e1 := zip64UncompressedStep_read f (pre ++ (pu ++ ph))
      pre.length lenLeft (leNum pu) h1 hr1
    have e2 := zip64CompressedStep_keep
      { f with large_file := true, uncompressed_size := leNum pu }
      (pre ++ (pu ++ ph)) (pre.length + 8) (lenLeft - 8) h2
    have e3 := zip64HeaderStep_read
      { f with large_file := true, uncompressed_size := leNum pu }
      (pre ++ (pu ++ ph)) (pre.length + 8) (lenLeft - 8) (leNum ph) h3 hr3
    rw [zip64ExtraBlock_steps _ _ _ _ _ _ _ _ _ _ _ _ _ e1 e2 e3]
    simp only [Prod.mk.injEq]
    refine ⟨?_, ?_, ?_, ?_⟩ <;> first | trivial | omega
  · simp only [if_pos h1, if_neg h2, if_neg h3, if_pos (Or.inl h1), List.nil_append,
      List.append_nil]
    have hr1 := readNumAt_append pre pu [] 8 hu
    rw [List.append_nil] at hr1
    have e1 := zip64UncompressedStep_read f (pre ++ pu)
      pre.length lenLeft (leNum pu) h1 hr1
    have e2 := zip64CompressedStep_keep
      { f with large_file := true, uncompressed_size := leNum pu }
      (pre ++ pu) (pre.length + 8) (lenLeft - 8) h2
    have e3 := zip64HeaderStep_keep
      { f with large_file := true, uncompressed_size := leNum pu }
      (pre ++ pu) (pre.length + 8) (lenLeft - 8) h3
    rw [zip64ExtraBlock_steps _ _ _ _ _ _ _ _ _ _ _ _ _ e1 e2 e3]
    simp only [Prod.mk.injEq]
    refine ⟨?_, ?_, ?_, ?_⟩ <;> first | trivial | omega
  · simp only [if_neg h1, if_pos h2, if_pos h3, if_pos (Or.inr h2), List.nil_append]
    have hr2 := readNumAt_append pre pc ph 8 hc
    have hr3 : readNumAt (pre ++ (pc ++ ph)) (pre.length + 8) 8
        = some (leNum ph) := by
      have h := readNumAt_append (pre ++ pc) ph [] 8 hh
      rw [List.append_assoc, List.append_nil] at h
      rwa [List.length_append, hc] at h
    have e1 := zip64UncompressedStep_keep f (pre ++ (pc ++ ph)) pre.length lenLeft h1
    have e2 := zip64CompressedStep_read f (pre ++ (pc ++ ph))
      pre.length lenLeft (leNum pc) h2 hr2
    have e3 := zip64HeaderStep_read
      { f with large_file := true, compressed_size := leNum pc }
      (pre ++ (pc ++ ph)) (pre.length + 8) (lenLeft - 8) (leNum ph) h3 hr3
    rw [zip64ExtraBlock_steps _ _ _ _ _ _ _ _ _ _ _ _ _ e1 e2 e3]
    simp only [Prod.mk.injEq]
    refine ⟨?_, ?_, ?_, ?_⟩ <;> first | trivial | omega
  · simp only [if_neg h1, if_pos h2, if_neg h3, if_pos (Or.inr h2), List.nil_append,
      List.append_nil]
    have hr2 := readNumAt_append pre pc [] 8 hc
    rw [List.append_nil] at hr2
    have e1 := zip64UncompressedStep_keep f (pre ++ pc) pre.length lenLeft h1
    have e2 := zip64CompressedStep_read f (pre ++ pc)
      pre.length lenLeft (leNum pc) h2 hr2
    have e3 := zip64HeaderStep_keep
      { f with large_file := true, compressed_size := leNum pc }
      (pre ++ pc) (pre.length + 8) (lenLeft - 8) h3
    rw [zip64ExtraBlock_steps _ _ _ _ _ _ _ _ _ _ _ _ _ e1 e2 e3]
    simp only [Prod.mk.injEq]
    refine ⟨?_, ?_, ?_, ?_⟩ <;> first | trivial | omega
  · simp only [if_neg h1, if_neg h2, if_pos h3, if_neg (not_or.mpr ⟨h1, h2⟩),
      List.nil_append]
    have hr3 := readNumAt_append pre ph [] 8 hh
    rw [List.append_nil] at hr3
    have e1 := zip64UncompressedStep_keep f (pre ++ ph) pre.length lenLeft h1
    have e2 := zip64CompressedStep_keep f (pre ++ ph) pre.length lenLeft h2
    have e3 := zip64HeaderStep_read f (pre ++ ph)
      pre.length lenLeft (leNum ph) h3 hr3
    rw [zip64ExtraBlock_steps _ _ _ _ _ _ _ _ _ _ _ _ _ e1 e2 e3]
    simp only [Prod.mk.injEq]
    refine ⟨?_, ?_, ?_, ?_⟩ <;> first | trivial | omega
  · simp only [if_neg h1, if_neg h2, if_neg h3, if_neg (not_or.mpr ⟨h1, h2⟩),
      List.nil_append, List.append_nil]
    have e1 := zip64UncompressedStep_keep f (pre ++ []) pre.length lenLeft h1
    have e2 := zip64CompressedStep_keep f (pre ++ []) pre.length lenLeft h2
    have e3 := zip64HeaderStep_keep f (pre ++ []) pre.length lenLeft h3
    rw [List.append_nil] at e1 e2 e3
    rw [zip64ExtraBlock_steps _ _ _ _ _ _ _ _ _ _ _ _ _ e1 e2 e3]
    simp only [Prod.mk.injEq]
    refine ⟨?_, ?_, ?_, ?_⟩ <;> first | trivial | omega

/-- Claim C4 as amended: the kind-0x0001 record is consumed as 8-byte
overrides in the fixed order uncompressed size, compressed size, header
offset, reading an override exactly for the fields whose legacy value is
the 0xFFFFFFFF sentinel; consuming a size override sets large_file, while
consuming the header-offset override leaves large_file untouched;
non-sentinel fields keep their legacy values. -/
theorem zip64_extra_field_spec (entry : ZipFileData) (pu pc ph parts : List Nat)
    (hu : pu.length = 8) (hc : pc.length = 8) (hh : ph.length = 8)
    (hlf : entry.large_file = false)
    (hparts : parts
      = (if entry.uncompressed_size = ZIP64_BYTES_THR then pu else [])
        ++ ((if entry.compressed_size = ZIP64_BYTES_THR then pc else [])
          ++ (if entry.header_start = ZIP64_BYTES_THR then ph else [])))
    (hef : entry.extra_field = [1, 0, parts.length, 0] ++ parts) :
    (parse_extra_field entry).2 = .ok ()
    ∧ (parse_extra_field entry).1.uncompressed_size
        = (if entry.uncompressed_size = ZIP64_BYTES_THR then leNum pu
           else entry.uncompressed_size)
    ∧ (parse_extra_field entry).1.compressed_size
        = (if entry.compressed_size = ZIP64_BYTES_THR then leNum pc
           else entry.compressed_size)
    ∧ (parse_extra_field entry).1.header_start
        = (if entry.header_start = ZIP64_BYTES_THR then leNum ph
           else entry.header_start)
    ∧ ((parse_extra_field entry).1.large_file = true
        ↔ (entry.uncompressed_size = ZIP64_BYTES_THR
          ∨ entry.compressed_size = ZIP64_BYTES_THR)) := by
  have hplen : parts.length ≤ 24 := by
    rw [hparts]
    simp only [List.length_append]
    split <;> split <;> split <;> simp [hu, hc, hh]
  have hextralen : entry.extra_field.length = 4 + parts.length := by
    rw [hef]
    simp only [List.length_append, List.length_cons, List.length_nil]
  have hkind : readNumAt entry.extra_field 0 2 = some 1 := by
    rw [hef]
    unfold readNumAt readBytesAt
    rw [if_pos (by simp only [List.length_append, List.length_cons, List.length_nil]; omega)]
    rfl
  have hlen : readNumAt entry.extra_field 2 2 = some parts.length := by
    rw [hef]
    unfold readNumAt readBytesAt
    rw [if_pos (by simp only [List.length_append, List.length_cons, List.length_nil]; omega)]
    show some (leNum [parts.length, 0]) = some parts.length
    simp [leNum]
  have hcount : parts.length
      = (if entry.uncompressed_size = ZIP64_BYTES_THR then 8 else 0)
        + ((if entry.compressed_size = ZIP64_BYTES_THR then 8 else 0)
          + (if entry.header_start = ZIP64_BYTES_THR then 8 else 0)) := by
    rw [hparts]
    simp only [List.length_append]
    split <;> split <;> split <;> simp [hu, hc, hh]
  have hblock := zip64ExtraBlock_spec entry [1, 0, parts.length, 0]
    ((parts.length : Int)) pu pc ph hu hc hh
  rw [← hparts] at hblock
  have hpre4 : ([1, 0, parts.length, 0] : List Nat).length = 4 := by simp
  rw [hpre4] at hblock
  rw [← hef] at hblock
  have hmain : parse_extra_field entry
      = ({ entry with
            uncompressed_size :=
              if entry.uncompressed_size = ZIP64_BYTES_THR then leNum pu
              else entry.uncompressed_size
            compressed_size :=
              if entry.compressed_size = ZIP64_BYTES_THR then leNum pc
              else entry.compressed_size
            header_start :=
              if entry.header_start = ZIP64_BYTES_THR then leNum ph
              else entry.header_start
            large_file :=
              if entry.uncompressed_size = ZIP64_BYTES_THR
                ∨ entry.compressed_size = ZIP64_BYTES_THR
              then true else entry.large_file },
          .ok ()) := by
    unfold parse_extra_field
    rw [hextralen]
    rw [parseExtraLoop]
    rw [if_pos (by omega)]
    have h02 : (0 : Nat) + 2 = 2 := rfl
    rw [h02, hkind, hlen]
    dsimp only
    rw [if_pos rfl]
    have h04 : (0 : Nat) + 4 = 4 := rfl
    rw [h04, hblock]
    dsimp only
    have hll : (parts.length : Int)
        - ((if entry.uncompressed_size = ZIP64_BYTES_THR then (8 : Int) else 0)
          + ((if entry.compressed_size = ZIP64_BYTES_THR then (8 : Int) else 0)
            + (if entry.header_start = ZIP64_BYTES_THR then (8 : Int) else 0)))
        = 0 := by
      rw [hcount]
      split <;> split <;> split <;> simp
    rw [hll]
    rw [if_neg (lt_irrefl 0)]
    rw [parseExtraLoop_at_end _ _ _ _ (by omega)]
  rw [hmain]
  refine ⟨rfl, rfl, rfl, rfl, ?_⟩
  by_cases hor : (entry.uncompressed_size = ZIP64_BYTES_THR
    ∨ entry.compressed_size = ZIP64_BYTES_THR)
  · simp [hor]
  · simp [hor, hlf]

/-- Witness for zip64_extra_field_spec: an entry whose uncompressed size
and header offset are sentinel-valued while the compressed size (3) is
not: the overrides resolve to 1 and 2, the compressed size stays 3, and
large_file is set. -/
theorem zip64_extra_field_witness :
    (parse_extra_field
      { compression_method := .Stored, compressed_size := 3,
        uncompressed_size := 0xFFFFFFFF, file_name := "w",
        extra_field := [1, 0, 16, 0, 1, 0, 0, 0, 0, 0, 0, 0, 2, 0, 0, 0, 0, 0, 0, 0],
        header_start := 0xFFFFFFFF, central_header_start := 0,
        large_file := false, aes_mode := none }).1.uncompressed_size = 1
    ∧ (parse_extra_field
      { compression_method := .Stored, compressed_size := 3,
        uncompressed_size := 0xFFFFFFFF, file_name := "w",
        extra_field := [1, 0, 16, 0, 1, 0, 0, 0, 0, 0, 0, 0, 2, 0, 0, 0, 0, 0, 0, 0],
        header_start := 0xFFFFFFFF, central_header_start := 0,
        large_file := false, aes_mode := none }).1.compressed_size = 3
    ∧ (parse_extra_field
      { compression_method := .Stored, compressed_size := 3,
        uncompressed_size := 0xFFFFFFFF, file_name := "w",
        extra_field := [1, 0, 16, 0, 1, 0, 0, 0, 0, 0, 0, 0, 2, 0, 0, 0, 0, 0, 0, 0],
        header_start := 0xFFFFFFFF, central_header_start := 0,
        large_file := false, aes_mode := none }).1.header_start = 2
    ∧ (parse_extra_field
      { compression_method := .Stored, compressed_size := 3,
        uncompressed_size := 0xFFFFFFFF, file_name := "w",
        extra_field := [1, 0, 16, 0, 1, 0, 0, 0, 0, 0, 0, 0, 2, 0, 0, 0, 0, 0, 0, 0],
        header_start := 0xFFFFFFFF, central_header_start := 0,
        large_file := false, aes_mode := none }).1.large_file = true := by
  have h := zip64_extra_field_spec
    { compression_method := .Stored, compressed_size := 3,
      uncompressed_size := 0xFFFFFFFF, file_name := "w",
      extra_field := [1, 0, 16, 0, 1, 0, 0, 0, 0, 0, 0, 0, 2, 0, 0, 0, 0, 0, 0, 0],
      header_start := 0xFFFFFFFF, central_header_start := 0,
      large_file := false, aes_mode := none }
    [1, 0, 0, 0, 0, 0, 0, 0] [9, 9, 9, 9, 9, 9, 9, 9] [2, 0, 0, 0, 0, 0, 0, 0]
    [1, 0, 0, 0, 0, 0, 0, 0, 2, 0, 0, 0, 0, 0, 0, 0]
    rfl rfl rfl rfl (by decide) (by decide)
  obtain ⟨-, h1, h2, h3, h4⟩ := h
  refine ⟨?_, ?_, ?_, ?_⟩
  · rw [h1]; decide
  · rw [h2]; decide
  · rw [h3]; decide
  · exact h4.mpr (Or.inl (by decide))

end VfsZip
